import Mathlib

/-!
Verification of the `rago` retrieval-augmented-generation adapters:
`rago/augmented/openai.py` (class `OpenAIAug`, the spec's EmbeddingAugmenter)
and `rago/generation/llama.py` (class `LlamaGen`, the spec's
ContextualGenerator).

The Python code is shallowly embedded: external collaborators (embedding
provider, vector index, language detector, generation pipeline) are oracles
passed in as explicit arguments; exceptions are `Except`/`Option`; side
effects on collaborators are recorded as explicit call traces. Python
semantics used by the code (truthiness in `or`, sequence indexing with
negative positions, `str.split`, `str.strip`, `str.startswith`) are
modelled on `List Char` / `Int` with their documented CPython behavior.
-/

namespace Rago

/-! ## Python semantics helpers -/

/-- Python `a or b` for `int` operands: `a` is falsy exactly when it is `0`. -/
def pyOrInt (a b : Int) : Int :=
  if a = 0 then b else a

/-- Python `a or b` for `str` operands: `a` is falsy exactly when it is empty. -/
def pyOrStr (a b : String) : String :=
  if a = "" then b else a

/-- Python sequence indexing `xs[i]`: a nonnegative position is used directly,
a negative position `i` with `-len xs ≤ i` counts from the end, and any other
position raises `IndexError` (modelled as `none`). -/
def pyGetItem {α : Type} (xs : List α) (i : Int) : Option α :=
  if 0 ≤ i then xs[i.toNat]?
  else if -(xs.length : Int) ≤ i then xs[((xs.length : Int) + i).toNat]?
  else none

/-- A Python list comprehension `[f x for x in xs]` over a fallible body:
evaluates left to right and raises (propagates `none`) at the first failure. -/
def mapOption {α β : Type} (f : α → Option β) : List α → Option (List β)
  | [] => some []
  | a :: as => (f a).bind (fun b => (mapOption f as).map (fun bs => b :: bs))

/-! ## `rago/augmented/openai.py` — class `OpenAIAug` -/

/-- The spec's error taxonomy, mapped onto the exceptions the code raises:
`configuration` is the `ValueError('API key for OpenAI is required.')` /
`Exception('The given model name ... is not provided by meta.')` raised at
setup/validation time, `uninitializedIndex` is the
`Exception('Vector database (db) is not initialized.')` raised by `search`,
and `retrievalIndex` is the `IndexError` raised by `documents[i]` when the
index returns an out-of-range position. -/
inductive RagoError : Type
  | configuration
  | uninitializedIndex
  | retrievalIndex
  deriving DecidableEq, Repr

/-- One call to an external collaborator, in the order `search`/setup makes
them: an embedding-provider request (`OpenAIAug.get_embedding`), the vector
index's `embed`, and the vector index's `search` with the resolved `top_k`. -/
inductive ProviderCall : Type
  | embedCall (texts : List String)
  | dbEmbed
  | dbSearch (top_k : Int)
  deriving DecidableEq, Repr

/-- One setup-time effect of the adapters: mutating the provider's global
API key, constructing the provider client (`openai.OpenAI(...)`), and the
generator's tokenizer/model/pipeline loading. -/
inductive SetupEvent : Type
  | setGlobalKey
  | createClient
  | loadTokenizer
  | loadModel
  | buildPipeline
  deriving DecidableEq, Repr

namespace OpenAIAug

/-- `OpenAIAug.default_model_name = 'text-embedding-3-small'`. -/
def default_model_name : String := "text-embedding-3-small"

/-- `OpenAIAug.default_top_k = 2`. -/
def default_top_k : Int := 2

/-- Adapter instance state relevant to `search`: whether a vector index has
been attached (`self.db`, truthiness as a `Bool`) and the instance-level
`self.top_k` (an `int` whose unset value is `0`; the field itself lives in
the `AugmentedBase` base class, outside this file's sources). -/
structure AugState : Type where
  db : Bool
  top_k : Int
  deriving DecidableEq, Repr

/-- `OpenAIAug._setup`: raises `ValueError` (`RagoError.configuration`) when
`self.api_key` is falsy, otherwise assigns the provider's global API key,
resolves `self.model_name = self.model_name or self.default_model_name`, and
constructs the provider client. Returns the resolved model name paired with
the trace of setup effects. -/
def «_setup» (api_key model_name : String) :
    Except RagoError String × List SetupEvent :=
  if api_key = "" then (.error .configuration, [])
  else (.ok (pyOrStr model_name default_model_name),
        [SetupEvent.setGlobalKey, SetupEvent.createClient])

/-- `OpenAIAug.get_embedding`: calls the provider with the full batch
`content` (the oracle `provider` gives the embedding of each text, so
`response.data = content.map provider`), then materializes only
`response.data[0].embedding`, reshaped to the `(1, size)` row matrix
`[first]`. On an empty batch, `response.data[0]` raises (`none`). -/
def get_embedding (provider : String → List Int) (content : List String) :
    Option (List (List Int)) :=
  match content.map provider with
  | [] => none
  | e :: _ => some [e]

/-- The cascade `top_k = top_k or self.top_k or self.default_top_k or 1`
from `OpenAIAug.search` (Python `or` on ints, left to right). -/
def resolveTopK (arg inst : Int) : Int :=
  pyOrInt arg (pyOrInt inst (pyOrInt default_top_k 1))

/-- `OpenAIAug.search`: raises `RagoError.uninitializedIndex` when no vector
index is attached, before any provider call; otherwise embeds the documents
and the query, resolves `top_k`, hands the document vectors to the index,
queries it (the oracle `dbFn` returns the index's `(scores, indices)` for
the resolved `top_k`), and maps the returned positions back through Python
indexing `[documents[i] for i in indices]`, which raises
`RagoError.retrievalIndex` at the first out-of-range position. The log
mapping (`self.logs`, observability only) is not modelled. Returns the
result paired with the trace of collaborator calls. -/
def search (st : AugState) (query : String) (documents : List String)
    (top_k : Int) (dbFn : Int → List Int × List Int) :
    Except RagoError (List String) × List ProviderCall :=
  if st.db = false then (.error .uninitializedIndex, [])
  else
    let k := resolveTopK top_k st.top_k
    let indices := (dbFn k).2
    let calls := [ProviderCall.embedCall documents, ProviderCall.embedCall [query],
                  ProviderCall.dbEmbed, ProviderCall.dbSearch k]
    match mapOption (pyGetItem documents) indices with
    | none => (.error .retrievalIndex, calls)
    | some docs => (.ok docs, calls)

end OpenAIAug

/-! ## Python string semantics: `str.split`, `str.strip` -/

/-- Python's ASCII whitespace, as removed by `str.strip()` (the characters
relevant to this code are all ASCII). -/
def pyIsSpace (c : Char) : Bool :=
  c = ' ' || c = '\t' || c = '\n' || c = '\r' || c = '\x0b' || c = '\x0c'

/-- Python `str.strip()`: remove leading and trailing whitespace. -/
def pyStrip (s : List Char) : List Char :=
  ((s.dropWhile pyIsSpace).reverse.dropWhile pyIsSpace).reverse

/-- The scanning loop of Python `str.split(sep)` for a non-empty separator:
cut at each non-overlapping occurrence of `sep`, left to right. `fuel`
bounds the recursion depth; one character is consumed per step, so any
`fuel ≥ xs.length` gives the loop's true (fuel-independent) result, and
callers pass `xs.length`. -/
def splitOnAuxF (sep : List Char) : Nat → List Char → List Char → List (List Char)
  | _, acc, [] => [acc.reverse]
  | 0, acc, xs => [acc.reverse ++ xs]
  | fuel + 1, acc, c :: cs =>
    if 0 < sep.length ∧ sep.isPrefixOf (c :: cs) = true then
      acc.reverse :: splitOnAuxF sep fuel [] ((c :: cs).drop sep.length)
    else
      splitOnAuxF sep fuel (c :: acc) cs

/-- Python `s.split(sep)` for a non-empty `sep` (Python raises on an empty
separator; the only separator the code uses, `"Answer:"`, is non-empty). -/
def pySplit (s sep : List Char) : List (List Char) :=
  splitOnAuxF sep s.length [] s

/-- Does `sep` occur as a contiguous run inside `xs`? (`sep in xs` for
non-empty `sep`.) -/
def occursIn (sep : List Char) : List Char → Bool
  | [] => sep.isEmpty
  | c :: cs => sep.isPrefixOf (c :: cs) || occursIn sep cs

/-! ## `rago/generation/llama.py` — class `LlamaGen` -/

namespace LlamaGen

/-- `LlamaGen.default_model_name = 'meta-llama/Llama-3.2-1B'`. -/
def default_model_name : String := "meta-llama/Llama-3.2-1B"

/-- `LlamaGen._validate`: raises (`RagoError.configuration`) unless
`self.model_name.startswith('meta-llama/')`. -/
def «_validate» (model_name : String) : Except RagoError Unit :=
  if model_name.startsWith "meta-llama/" then Except.ok () else
    Except.error RagoError.configuration

/-- Modelled from the spec: the abstract base contract (`GenerationBase`,
`rago/generation/base.py`) that drives adapter setup is not among these
sources; per the spec (§3 Configuration, §7, §8), setup with an empty or
absent API key raises `ConfigurationError` before any network or
model-loading call is attempted. After that spec-modelled key check, setup
runs `_validate` (from the source) and then `_setup`'s loading effects
(tokenizer, model, pipeline — from the source). -/
def setup (api_key model_name : String) :
    Except RagoError Unit × List SetupEvent :=
  if api_key = "" then (Except.error RagoError.configuration, [])
  else
    match «_validate» model_name with
    | Except.error e => (Except.error e, [])
    | Except.ok () =>
      (Except.ok (), [SetupEvent.loadTokenizer, SetupEvent.loadModel,
                      SetupEvent.buildPipeline])

/-- The literal marker `'Answer:'` used by `LlamaGen.generate` to cut the
generated text. -/
def answerMarker : List Char := "Answer:".data

/-- The answer post-processing of `LlamaGen.generate`:
`answer.split('Answer:')[-1].strip()` (Python `[-1]` on the never-empty
result of `split`). -/
def extractAnswer (s : List Char) : List Char :=
  pyStrip ((pySplit s answerMarker).getLastD [])

/-- How a `LlamaGen.generate` call can fail: `langDetect` is the
`langdetect` exception propagating out of `detect(query)` (nothing in
`generate` catches it), `emptyResponse` is the `IndexError` raised by
`response[0]` on an empty pipeline response. -/
inductive GenFailure : Type
  | langDetect
  | emptyResponse
  deriving DecidableEq, Repr

/-- `LlamaGen.generate`, after prompt formatting: `detectResult` is the
oracle outcome of `langdetect.detect(query)` (`Except.error` = the detector
raised); `pipelineOutput` is the pipeline's returned sequence, each entry
the optional `generated_text` field of one mapping. The code runs
`language = str(detect(query)) or 'en'`, assigns it to
`self.tokenizer.lang_code`, invokes the pipeline, and post-processes
`response[0].get('generated_text', '')` with `extractAnswer`. Returns the
call's result paired with the language hint written to the tokenizer
(`none` when the call failed before the assignment). The `self.logs`
mapping (observability only) is not modelled. -/
def generate (detectResult : Except Unit String)
    (pipelineOutput : List (Option String)) :
    Except GenFailure String × Option String :=
  match detectResult with
  | Except.error _ => (Except.error GenFailure.langDetect, none)
  | Except.ok s =>
    let language := pyOrStr s "en"
    match pipelineOutput with
    | [] => (Except.error GenFailure.emptyResponse, some language)
    | r :: _ =>
      (Except.ok (String.mk (extractAnswer (r.getD "").data)), some language)

end LlamaGen

/-! ## Lemmas about the Python semantics helpers -/

theorem mapOption_eq_none_iff {α β : Type} {f : α → Option β} {xs : List α} :
    mapOption f xs = none ↔ ∃ a ∈ xs, f a = none := by
  induction xs with
  | nil => simp [mapOption]
  | cons a as ih =>
    cases h : f a with
    | none =>
      refine iff_of_true (by simp [mapOption, h]) ⟨a, by simp, h⟩
    | some b =>
      simp [mapOption, h, Option.map_eq_none', ih]

theorem mapOption_isSome {α β : Type} {f : α → Option β} {xs : List α}
    (h : ∀ a ∈ xs, ∃ b, f a = some b) :
    ∃ ys, mapOption f xs = some ys := by
  induction xs with
  | nil => exact ⟨[], rfl⟩
  | cons a as ih =>
    obtain ⟨b, hb⟩ := h a (by simp)
    obtain ⟨zs, hzs⟩ := ih (fun x hx => h x (by simp [hx]))
    exact ⟨b :: zs, by simp [mapOption, hb, hzs]⟩

theorem mapOption_length {α β : Type} {f : α → Option β} {xs : List α}
    {ys : List β} (h : mapOption f xs = some ys) : ys.length = xs.length := by
  induction xs generalizing ys with
  | nil =>
    simp only [mapOption, Option.some.injEq] at h
    subst h; rfl
  | cons a as ih =>
    simp only [mapOption, Option.bind_eq_some, Option.map_eq_some'] at h
    obtain ⟨b, hb, zs, hzs, hy⟩ := h
    subst hy
    simp [ih hzs]

theorem mapOption_getElem? {α β : Type} {f : α → Option β} {xs : List α}
    {ys : List β} (h : mapOption f xs = some ys) :
    ∀ j : Nat, ys[j]? = xs[j]?.bind f := by
  induction xs generalizing ys with
  | nil =>
    simp only [mapOption, Option.some.injEq] at h
    subst h; intro j; simp
  | cons a as ih =>
    simp only [mapOption, Option.bind_eq_some, Option.map_eq_some'] at h
    obtain ⟨b, hb, zs, hzs, hy⟩ := h
    subst hy
    intro j
    cases j with
    | zero => simp [List.getElem?_cons_zero, hb]
    | succ j => simpa using ih hzs j

theorem pyGetItem_mem {α : Type} {xs : List α} {i : Int} {a : α}
    (h : pyGetItem xs i = some a) : a ∈ xs := by
  unfold pyGetItem at h
  split at h
  · exact List.getElem?_mem h
  · split at h
    · exact List.getElem?_mem h
    · exact absurd h (by simp)

theorem pyGetItem_isSome {α : Type} {xs : List α} {i : Int}
    (h1 : -(xs.length : Int) ≤ i) (h2 : i < (xs.length : Int)) :
    ∃ a, pyGetItem xs i = some a := by
  unfold pyGetItem
  split
  · have hlt : i.toNat < xs.length := by omega
    exact ⟨xs[i.toNat], List.getElem?_eq_getElem hlt⟩
  · have hlt : ((xs.length : Int) + i).toNat < xs.length := by omega
    exact ⟨_, List.getElem?_eq_getElem hlt⟩

theorem pyGetItem_eq_none {α : Type} {xs : List α} {i : Int}
    (h : (xs.length : Int) ≤ i ∨ i < -(xs.length : Int)) :
    pyGetItem xs i = none := by
  unfold pyGetItem
  split
  · exact List.getElem?_eq_none (by omega)
  · rw [if_neg (by omega)]

theorem pyGetItem_neg {α : Type} {xs : List α} {i : Int}
    (h1 : -(xs.length : Int) ≤ i) (h2 : i < 0) :
    pyGetItem xs i = xs[((xs.length : Int) + i).toNat]? := by
  unfold pyGetItem
  rw [if_neg (by omega), if_pos h1]

theorem splitOnAuxF_ne_nil (sep : List Char) :
    ∀ (fuel : Nat) (acc xs : List Char), splitOnAuxF sep fuel acc xs ≠ [] := by
  intro fuel
  induction fuel with
  | zero => intro acc xs; cases xs <;> simp [splitOnAuxF]
  | succ f ih =>
    intro acc xs
    cases xs with
    | nil => simp [splitOnAuxF]
    | cons c cs =>
      rw [splitOnAuxF]
      split
      · simp
      · exact ih _ _

theorem splitOnAuxF_no_occurrence (sep : List Char) :
    ∀ (fuel : Nat) (xs acc : List Char), occursIn sep xs = false →
      xs.length ≤ fuel → splitOnAuxF sep fuel acc xs = [acc.reverse ++ xs] := by
  intro fuel
  induction fuel with
  | zero =>
    intro xs acc _ hlen
    have hx : xs = [] := List.length_eq_zero.mp (Nat.le_zero.mp hlen)
    subst hx
    simp [splitOnAuxF]
  | succ f ih =>
    intro xs acc h hlen
    cases xs with
    | nil => simp [splitOnAuxF]
    | cons c cs =>
      simp only [occursIn, Bool.or_eq_false_iff] at h
      rw [splitOnAuxF, if_neg]
      · rw [ih cs (c :: acc) h.2
          (by simp only [List.length_cons] at hlen; omega)]
        simp
      · rintro ⟨-, hp⟩
        rw [h.1] at hp
        exact Bool.false_ne_true hp

theorem getLastD_irrel {α : Type} {L : List α} (h : L ≠ []) (x d : α) :
    L.getLastD x = L.getLastD d := by
  cases L with
  | nil => exact absurd rfl h
  | cons a as => rw [List.getLastD_cons, List.getLastD_cons]

/-- One scan step at an occurrence of the separator: the pending segment is
emitted and the separator is consumed. -/
theorem splitOnAuxF_consume (sep : List Char) (hne : sep ≠ []) (f : Nat)
    (acc rest : List Char) :
    splitOnAuxF sep (f + 1) acc (sep ++ rest) =
      acc.reverse :: splitOnAuxF sep f [] ((sep ++ rest).drop sep.length) := by
  rcases sep with _ | ⟨d, sep'⟩
  · exact absurd rfl hne
  · rw [show (d :: sep') ++ rest = d :: (sep' ++ rest) from rfl, splitOnAuxF,
      if_pos ⟨by simp, List.isPrefixOf_iff_prefix.mpr (List.prefix_append _ _)⟩]

/-- The last segment produced by the split scan: if the scanned string
decomposes as `u ++ (sep ++ t)` with `sep`-free tail `t` and `sep` has no
non-trivial border (no proper non-empty prefix that is also a suffix), the
last segment is exactly `t` — i.e., `split(sep)[-1]` is the text after the
last occurrence of the separator. -/
theorem splitOnAuxF_last_after_sep (sep : List Char) (hne : sep ≠ [])
    (hborder : ∀ k, k < sep.length → 0 < k →
      sep.take k ≠ sep.drop (sep.length - k)) :
    ∀ (fuel : Nat) (u t acc : List Char), occursIn sep t = false →
      (u ++ (sep ++ t)).length ≤ fuel →
      (splitOnAuxF sep fuel acc (u ++ (sep ++ t))).getLastD [] = t := by
  have hsl : 0 < sep.length := List.length_pos.mpr hne
  intro fuel
  induction fuel with
  | zero =>
    intro u t acc _ hlen
    exfalso
    simp only [List.length_append] at hlen
    omega
  | succ f ih =>
    intro u t acc hocc hlen
    cases u with
    | nil =>
      simp only [List.nil_append] at hlen ⊢
      rw [splitOnAuxF_consume sep hne f acc t, List.drop_left,
        splitOnAuxF_no_occurrence sep f t [] hocc
          (by simp only [List.length_append] at hlen; omega)]
      simp [List.getLastD_cons]
    | cons c u' =>
      by_cases hp : sep.isPrefixOf (c :: (u' ++ (sep ++ t))) = true
      · have hpre : sep <+: (c :: u') ++ (sep ++ t) :=
          List.isPrefixOf_iff_prefix.mp hp
        have hple : sep.length ≤ (c :: u').length := by
          by_contra hlt
          push_neg at hlt
          have hulen : (c :: u').length ≤ sep.length := Nat.le_of_lt hlt
          have htk : sep = (c :: u') ++
              sep.take (sep.length - (c :: u').length) := by
            calc sep = ((c :: u') ++ (sep ++ t)).take sep.length :=
                  List.prefix_iff_eq_take.mp hpre
              _ = (c :: u').take sep.length ++
                  (sep ++ t).take (sep.length - (c :: u').length) :=
                  List.take_append_eq_append_take
              _ = (c :: u') ++ (sep.take (sep.length - (c :: u').length) ++
                  t.take ((sep.length - (c :: u').length) - sep.length)) := by
                  rw [List.take_of_length_le hulen,
                    List.take_append_eq_append_take]
              _ = (c :: u') ++ sep.take (sep.length - (c :: u').length) := by
                  rw [Nat.sub_eq_zero_of_le (Nat.sub_le _ _)]
                  simp
          have hdrop : sep.drop (c :: u').length =
              sep.take (sep.length - (c :: u').length) := by
            conv_lhs => rw [htk]
            rw [List.drop_left]
          refine hborder (sep.length - (c :: u').length)
            (by simp only [List.length_cons] at hlt ⊢; omega)
            (by simp only [List.length_cons] at hlt ⊢; omega) ?_
          have huu : sep.length - (sep.length - (c :: u').length) =
              (c :: u').length := Nat.sub_sub_self hulen
          rw [huu]
          exact hdrop.symm
        have htake : sep = (c :: u').take sep.length := by
          calc sep = ((c :: u') ++ (sep ++ t)).take sep.length :=
                List.prefix_iff_eq_take.mp hpre
            _ = (c :: u').take sep.length ++
                (sep ++ t).take (sep.length - (c :: u').length) :=
                List.take_append_eq_append_take
            _ = (c :: u').take sep.length := by
                rw [Nat.sub_eq_zero_of_le hple]
                simp
        have hu : (c :: u') = sep ++ (c :: u').drop sep.length := by
          conv_lhs => rw [← List.take_append_drop sep.length (c :: u'),
            ← htake]
        have hgoal : (c :: u') ++ (sep ++ t) =
            sep ++ ((c :: u').drop sep.length ++ (sep ++ t)) := by
          conv_lhs => rw [hu]
          rw [List.append_assoc]
        rw [hgoal, splitOnAuxF_consume sep hne f acc _, List.drop_left,
          List.getLastD_cons,
          getLastD_irrel (splitOnAuxF_ne_nil sep f _ _) acc.reverse []]
        refine ih _ t [] hocc ?_
        simp only [List.length_append, List.length_cons, List.length_drop]
          at hlen ⊢
        omega
      · rw [show (c :: u') ++ (sep ++ t) = c :: (u' ++ (sep ++ t)) from rfl,
          splitOnAuxF, if_neg]
        · refine ih u' t (c :: acc) hocc ?_
          simp only [List.length_append, List.length_cons] at hlen ⊢
          omega
        · rintro ⟨-, hp'⟩
          exact hp hp'

namespace OpenAIAug

theorem resolveTopK_of_ne_zero {arg inst : Int} (h : arg ≠ 0) :
    resolveTopK arg inst = arg := by
  simp [resolveTopK, pyOrInt, h]

/-! ## Claim theorems for `OpenAIAug` -/

/-- C1: for every non-empty `documents` and every `top_k` with
`0 < top_k ≤ len(documents)`, if the attached index returns `top_k` valid
positions (ranked best-first by its own policy), `search` returns exactly
`top_k` strings, each an element of `documents`, in the same order as the
positions the index returned. -/
theorem search_topk_contract (st : AugState) (query : String)
    (documents : List String) (top_k : Int) (dbFn : Int → List Int × List Int)
    (hdb : st.db = true) (_hne : documents ≠ [])
    (hk1 : 0 < top_k) (hk2 : top_k ≤ (documents.length : Int))
    (hlen : ((dbFn top_k).2).length = top_k.toNat)
    (hvalid : ∀ i ∈ (dbFn top_k).2, 0 ≤ i ∧ i < (documents.length : Int)) :
    ∃ docs, (search st query documents top_k dbFn).1 = Except.ok docs ∧
      docs.length = top_k.toNat ∧
      (∀ d ∈ docs, d ∈ documents) ∧
      (∀ j : Nat, docs[j]? = ((dbFn top_k).2[j]?).bind (pyGetItem documents)) := by
  have hk0 : top_k ≠ 0 := by omega
  obtain ⟨ys, hys⟩ := mapOption_isSome
    (fun i hi => pyGetItem_isSome (by have := (hvalid i hi).1; omega) (hvalid i hi).2)
  refine ⟨ys, ?_, ?_, ?_, ?_⟩
  · simp [search, hdb, resolveTopK_of_ne_zero hk0, hys]
  · rw [mapOption_length hys, hlen]
  · intro d hd
    obtain ⟨j, hj⟩ := List.mem_iff_getElem?.mp hd
    have hptw := mapOption_getElem? hys j
    rw [hj] at hptw
    cases hidx : ((dbFn top_k).2)[j]? with
    | none => rw [hidx] at hptw; simp at hptw
    | some i =>
      rw [hidx] at hptw
      simp only [Option.some_bind] at hptw
      exact pyGetItem_mem hptw.symm
  · exact mapOption_getElem? hys

/-- C1 witness: a concrete two-document corpus with `top_k = 2` and index
positions `[1, 0]`. -/
theorem search_topk_contract_witness :
    ∃ docs, (search ⟨true, 0⟩ "q" ["a", "b"] 2 (fun _ => ([0, 0], [1, 0]))).1 =
        Except.ok docs ∧ docs.length = (2 : Int).toNat := by
  obtain ⟨docs, h1, h2, -, -⟩ := search_topk_contract ⟨true, 0⟩ "q" ["a", "b"] 2
    (fun _ => ([0, 0], [1, 0])) rfl (by simp) (by decide) (by decide) (by decide)
    (by decide)
  exact ⟨docs, h1, h2⟩

/-- C2: the effective `top_k` used by `search` is resolved by the cascade
explicit argument → instance `top_k` → component default 2 → hard fallback 1,
first nonzero value winning; in particular explicit `0` with instance unset
resolves to `2`, and explicit `5` resolves to `5` regardless of the instance
setting. The last conjunct ties the cascade to `search`: the index is
queried with exactly the resolved value. -/
theorem topk_cascade :
    (∀ arg inst : Int, resolveTopK arg inst =
        if arg ≠ 0 then arg else if inst ≠ 0 then inst
        else if default_top_k ≠ 0 then default_top_k else 1) ∧
    resolveTopK 0 0 = 2 ∧
    (∀ inst : Int, resolveTopK 5 inst = 5) ∧
    (∀ (st : AugState) (q : String) (docs : List String) (k : Int)
        (dbFn : Int → List Int × List Int), st.db = true →
        (search st q docs k dbFn).2 =
          [ProviderCall.embedCall docs, ProviderCall.embedCall [q],
           ProviderCall.dbEmbed, ProviderCall.dbSearch (resolveTopK k st.top_k)]) := by
  refine ⟨?_, by decide, ?_, ?_⟩
  · intro arg inst
    by_cases h1 : arg = 0 <;> by_cases h2 : inst = 0 <;>
      simp [resolveTopK, pyOrInt, default_top_k, h1, h2]
  · intro inst
    exact resolveTopK_of_ne_zero (by decide)
  · intro st q docs k dbFn hdb
    cases hm : mapOption (pyGetItem docs) ((dbFn (resolveTopK k st.top_k)).2) with
    | none => simp [search, hdb, hm]
    | some ys => simp [search, hdb, hm]

/-- C2 witness: a concrete `search` call with explicit argument `0` and
instance `top_k` unset queries the index with the resolved value. -/
theorem topk_cascade_witness :
    (search ⟨true, 0⟩ "q" ["d"] 0 (fun _ => ([], []))).2 =
      [ProviderCall.embedCall ["d"], ProviderCall.embedCall ["q"],
       ProviderCall.dbEmbed, ProviderCall.dbSearch (resolveTopK 0 0)] :=
  topk_cascade.2.2.2 ⟨true, 0⟩ "q" ["d"] 0 (fun _ => ([], [])) rfl

/-- C4: `search` on an adapter with no vector index attached raises
`UninitializedIndexError` and makes no collaborator call at all (empty call
trace), for every query, document list, `top_k`, and index behavior. -/
theorem search_requires_index (st : AugState) (hdb : st.db = false)
    (query : String) (documents : List String) (top_k : Int)
    (dbFn : Int → List Int × List Int) :
    search st query documents top_k dbFn =
      (Except.error RagoError.uninitializedIndex, []) := by
  simp [search, hdb]

/-- C4 witness: concrete call with `db` unattached. -/
theorem search_requires_index_witness :
    search ⟨false, 7⟩ "q" ["d"] 1 (fun _ => ([], [])) =
      (Except.error RagoError.uninitializedIndex, []) :=
  search_requires_index ⟨false, 7⟩ rfl "q" ["d"] 1 (fun _ => ([], []))

/-- C7: whenever the index returns some position that is out of range for
the document sequence (at or beyond its length, or below minus its length),
`search` raises `RetrievalIndexError` instead of truncating or wrapping. -/
theorem search_out_of_range_raises (st : AugState) (query : String)
    (documents : List String) (top_k : Int) (dbFn : Int → List Int × List Int)
    (hdb : st.db = true)
    (hbad : ∃ i ∈ (dbFn (resolveTopK top_k st.top_k)).2,
        (documents.length : Int) ≤ i ∨ i < -(documents.length : Int)) :
    (search st query documents top_k dbFn).1 =
      Except.error RagoError.retrievalIndex := by
  obtain ⟨i, hi, hout⟩ := hbad
  have hnone : mapOption (pyGetItem documents)
      ((dbFn (resolveTopK top_k st.top_k)).2) = none :=
    mapOption_eq_none_iff.mpr ⟨i, hi, pyGetItem_eq_none hout⟩
  simp [search, hdb, hnone]

/-- C7 witness: index position `5` against a two-document corpus. -/
theorem search_out_of_range_raises_witness :
    (search ⟨true, 0⟩ "q" ["a", "b"] 1 (fun _ => ([0], [5]))).1 =
      Except.error RagoError.retrievalIndex :=
  search_out_of_range_raises ⟨true, 0⟩ "q" ["a", "b"] 1 (fun _ => ([0], [5]))
    rfl (by decide)

/-- C10 (implicit): when every position returned by the index is in Python's
valid range `-len ≤ i < len`, `search` raises no error, and each negative
position `i` yields the document at offset `len + i`, counting from the end
of the corpus — out-of-range detection does not apply to negative in-range
positions. -/
theorem search_negative_positions_wrap (st : AugState) (query : String)
    (documents : List String) (top_k : Int) (dbFn : Int → List Int × List Int)
    (hdb : st.db = true)
    (hvalid : ∀ i ∈ (dbFn (resolveTopK top_k st.top_k)).2,
        -(documents.length : Int) ≤ i ∧ i < (documents.length : Int)) :
    ∃ docs, (search st query documents top_k dbFn).1 = Except.ok docs ∧
      ∀ (j : Nat) (i : Int),
        (dbFn (resolveTopK top_k st.top_k)).2[j]? = some i → i < 0 →
          docs[j]? = documents[((documents.length : Int) + i).toNat]? := by
  obtain ⟨ys, hys⟩ := mapOption_isSome
    (fun i hi => pyGetItem_isSome (hvalid i hi).1 (hvalid i hi).2)
  refine ⟨ys, by simp [search, hdb, hys], ?_⟩
  intro j i hj hneg
  have hptw := mapOption_getElem? hys j
  rw [hj] at hptw
  simp only [Option.some_bind] at hptw
  rw [hptw, pyGetItem_neg (hvalid i (List.getElem?_mem hj)).1 hneg]

/-- C10 witness: index position `-1` against a two-document corpus. -/
theorem search_negative_positions_wrap_witness :
    ∃ docs, (search ⟨true, 0⟩ "q" ["a", "b"] 1 (fun _ => ([0], [-1]))).1 =
      Except.ok docs := by
  obtain ⟨docs, h1, -⟩ := search_negative_positions_wrap ⟨true, 0⟩ "q"
    ["a", "b"] 1 (fun _ => ([0], [-1])) rfl (by decide)
  exact ⟨docs, h1⟩

end OpenAIAug

/-! ## Claim theorems for `LlamaGen` and setup -/

/-- C8: for every non-empty batch, `get_embedding` returns only the first
result's embedding from the provider response, reshaped to the `(1, size)`
row matrix — for a batch with more than one text, the embeddings of all
texts after the first are discarded (the result does not depend on them). -/
theorem get_embedding_first_only (provider : String → List Int) (t : String)
    (rest rest' : List String) :
    OpenAIAug.get_embedding provider (t :: rest) = some [provider t] ∧
    OpenAIAug.get_embedding provider (t :: rest) =
      OpenAIAug.get_embedding provider (t :: rest') :=
  ⟨rfl, rfl⟩

/-- C5: for both adapters, setup with an empty (absent) API key raises
`ConfigurationError` with no setup effect performed — no provider-client
creation for the augmenter, no tokenizer/model/pipeline loading for the
generator (the generator-side key check is modelled from the spec, see
`LlamaGen.setup`). -/
theorem setup_requires_api_key (model_name : String) :
    OpenAIAug.«_setup» "" model_name =
      (Except.error RagoError.configuration, []) ∧
    LlamaGen.setup "" model_name =
      (Except.error RagoError.configuration, []) :=
  ⟨rfl, rfl⟩

/-- C9: generator setup validates that the configured model name starts
with the provider namespace `meta-llama/` and fails with
`ConfigurationError` exactly for model names outside that family — both in
`_validate` itself and through `setup` (here with a non-empty API key). -/
theorem validate_model_family (model_name : String) :
    (LlamaGen.«_validate» model_name = Except.error RagoError.configuration ↔
      model_name.startsWith "meta-llama/" = false) ∧
    ((LlamaGen.setup "hf_key" model_name).1 =
        Except.error RagoError.configuration ↔
      model_name.startsWith "meta-llama/" = false) := by
  unfold LlamaGen.setup LlamaGen.«_validate»
  by_cases h : model_name.startsWith "meta-llama/" <;> simp [h]

/-- C6 counterexample: the claim says a raising language detector does not
make `generate` fail; but with a raising detector the exception propagates
out of `generate` (and the tokenizer hint is never set), at this concrete
pipeline output. -/
theorem generate_raising_detector_fails :
    LlamaGen.generate (Except.error ()) [some "It is Paris. Answer: Paris"] =
      (Except.error LlamaGen.GenFailure.langDetect, none) := rfl

/-- C6 amended: only the empty-result case of language detection is
recovered: when the detector returns an empty string, the tokenizer's
language hint is set to `"en"` and generation proceeds (a non-empty
pipeline response yields the extracted answer); when the detector raises,
the exception propagates out of `generate` and the hint is never set. -/
theorem generate_language_default :
    (∀ out : List (Option String),
      (LlamaGen.generate (Except.ok "") out).2 = some "en") ∧
    (∀ (r : Option String) (rest : List (Option String)),
      (LlamaGen.generate (Except.ok "") (r :: rest)).1 =
        Except.ok (String.mk (LlamaGen.extractAnswer (r.getD "").data))) ∧
    (∀ out : List (Option String),
      LlamaGen.generate (Except.error ()) out =
        (Except.error LlamaGen.GenFailure.langDetect, none)) := by
  refine ⟨?_, fun r rest => rfl, fun out => rfl⟩
  intro out
  cases out <;> rfl

/-- C3: `extractAnswer` (the post-processing
`answer.split('Answer:')[-1].strip()` of `LlamaGen.generate`) returns the
segment after the last occurrence of the literal marker `"Answer:"`,
trimmed of surrounding whitespace; with the marker absent it returns the
whole text trimmed; the spec's three examples behave as stated. -/
theorem answer_extraction :
    (∀ s : List Char, occursIn LlamaGen.answerMarker s = false →
      LlamaGen.extractAnswer s = pyStrip s) ∧
    (∀ u t : List Char, occursIn LlamaGen.answerMarker t = false →
      LlamaGen.extractAnswer (u ++ LlamaGen.answerMarker ++ t) = pyStrip t) ∧
    LlamaGen.extractAnswer "context... Answer: Paris".data = "Paris".data ∧
    LlamaGen.extractAnswer "Paris is the capital".data =
      "Paris is the capital".data ∧
    LlamaGen.extractAnswer "Answer: A Answer: B".data = "B".data := by
  refine ⟨?_, ?_, by decide, by decide, by decide⟩
  · intro s h
    unfold LlamaGen.extractAnswer pySplit
    rw [splitOnAuxF_no_occurrence _ _ _ _ h le_rfl]
    simp
  · intro u t h
    unfold LlamaGen.extractAnswer pySplit
    rw [List.append_assoc]
    exact congrArg pyStrip
      (splitOnAuxF_last_after_sep LlamaGen.answerMarker (by decide)
        (by decide) _ u t [] h le_rfl)

/-- C3 witness: a concrete decomposition around the marker. -/
theorem answer_extraction_witness :
    LlamaGen.extractAnswer
        ("The capital. ".data ++ LlamaGen.answerMarker ++ " Paris ".data) =
      pyStrip " Paris ".data :=
  answer_extraction.2.1 "The capital. ".data " Paris ".data (by decide)

end Rago
